import Mathlib

/-!
Verification of the clzip driver (`main.c` of deepin-community/clzip).

The development shallowly embeds the driver logic of `main.c`: the per-member
decompression loop, the volume-splitting compression loop with its file-name
counter, the command-line option handling, and the per-file main loop.  The
codec itself (range coder, match finder, LZ encoder/decoder) lives in source
files that are not part of this repository snapshot; it is abstracted as an
oracle, and the header-validation helpers it provides are modelled from the
specification of the lzip stream format.
-/

namespace Clzip

/-- Modelled from the spec: size of the lzip member header (4 magic bytes,
one version byte, one dictionary-size byte); `Lh_size` of the missing
`lzip.h` (spec section 6 wire format). -/
def Lh_size : Nat := 6

/-- Modelled from the spec: smallest valid dictionary size, 4 KiB
(`min_dictionary_size` of the missing `lzip.h`). -/
def min_dictionary_size : Nat := 4096

/-- Modelled from the spec: largest valid dictionary size, 512 MiB
(`max_dictionary_size` of the missing `lzip.h`). -/
def max_dictionary_size : Nat := 536870912

/-- Modelled from the spec: smallest match-length limit, 5
(`min_match_len_limit` of the missing `lzip.h`; spec section 4.4). -/
def min_match_len_limit : Nat := 5

/-- Modelled from the spec: largest match length, 273
(`max_match_len` of the missing `lzip.h`; spec section 4.3). -/
def max_match_len : Nat := 273

/-- Modelled from the spec: the four magic bytes "LZIP" that open every
member header (spec section 6 wire format). -/
def lzip_magic : List Nat := [76, 90, 73, 80]

/-- Modelled from the spec: `Lh_verify_magic` of the missing `lzip.h`:
the first four header bytes equal the magic string. -/
def Lh_verify_magic (h : List Nat) : Bool :=
  h.take 4 == lzip_magic

/-- Modelled from the spec: `Lh_verify_prefix` of the missing `lzip.h`:
a nonempty partial header read of `sz` bytes looks like the start of a
member header, i.e. the bytes read so far agree with the magic string
(used for the "Truncated header in multimember file" diagnostic). -/
def Lh_verify_hdrStart (h : List Nat) (sz : Nat) : Bool :=
  decide (0 < sz) && (h.take (min sz 4) == lzip_magic.take (min sz 4))

/-- Modelled from the spec: `Lh_version` of the missing `lzip.h`: the
version byte is header byte 4 (spec section 6 wire format). -/
def Lh_version (h : List Nat) : Nat := h.getD 4 0

/-- Modelled from the spec: `Lh_verify_version` of the missing `lzip.h`:
only version 1 members are accepted (spec section 4.1). -/
def Lh_verify_version (h : List Nat) : Bool := Lh_version h == 1

/-- Modelled from the spec: `Lh_get_dictionary_size` of the missing
`lzip.h`: header byte 5 encodes the dictionary size, low 5 bits the
exponent and high 3 bits the fraction count, with
`ds = 2^bits - frac * 2^(bits-4)` applied above the minimum size
(spec sections 4.1 and 6). -/
def Lh_get_dictionary_size (h : List Nat) : Nat :=
  let b := h.getD 5 0
  let sz := 2 ^ (b % 32)
  if min_dictionary_size < sz then sz - sz / 16 * (b / 32 % 8) else sz

/-- Modelled from the spec: `isvalid_ds` of the missing `lzip.h`: a
dictionary size is valid when it lies in [4 KiB, 512 MiB]
(spec section 4.1; testable property 7). -/
def isvalid_ds (ds : Nat) : Bool :=
  decide (min_dictionary_size ≤ ds ∧ ds ≤ max_dictionary_size)

/-- Diagnostic emitted when decompression stops (main.c:719-798); each
constructor corresponds to one message site of `decompress`. -/
inductive Diag where
  | endsUnexpectedly
  | truncatedHeader
  | trailingData
  | badMagic
  | corruptMember
  | badVersion (v : Nat)
  | badDict
  | memError
  | decodeFail (result : Nat)
deriving DecidableEq

/-- Outcome of `LZd_decode_member` together with `LZd_init` on one member
(decoder code absent from this snapshot, abstracted as an oracle):
either the member decodes, consuming `consumed` bytes of input counted
from the start of its header, or decoding fails with a nonzero result,
or the decoder's dictionary buffer cannot be allocated. -/
inductive MemberOutcome where
  | ok (consumed : Nat)
  | fail (result : Nat)
  | nomem
deriving DecidableEq

/-- Oracle for the codec parts that live outside `main.c`:
`decodeMember` abstracts `LZd_init`/`LZd_decode_member` applied to the
remaining input (header included); `verifyCorrupt` abstracts
`Lh_verify_corrupt` (the corrupt-header test of the missing `lzip.h`,
spec section 4.1 case 3); `rdInit` abstracts the success of `Rd_init`. -/
structure Codec where
  decodeMember : List Nat → MemberOutcome
  verifyCorrupt : List Nat → Bool
  rdInit : Bool

/-- The version message built by `bad_version` (main.c:253-259). -/
def bad_version (version : Nat) : String :=
  "Version " ++ toString version ++ " member format not supported."

/-- The exit status used by `internal_error` (main.c:824-829). -/
def internal_error_status : Nat := 3

/-- One iteration per member of the loop of `decompress` (main.c:730-793).
The first component of the result is the returned `retval`, the second
the diagnostic of the branch that ended the loop.  Reading the up-to-six
byte header with `Rd_read_data` leaves `Rd_finished` true exactly when at
most `Lh_size` bytes of input remained (the range decoder reports end of
input once the source is exhausted, spec section 4.2). -/
def decompressLoop (c : Codec) (ignore_trailing loose_trailing : Bool) :
    Nat → List Nat → Bool → Nat × Option Diag
  | 0, _, _ => (0, none)
  | fuel + 1, input, first_member =>
    let size := min input.length Lh_size
    let header := input.take Lh_size
    if input.length ≤ Lh_size then
      if first_member then (2, some .endsUnexpectedly)
      else if Lh_verify_hdrStart header size then (2, some .truncatedHeader)
      else if 0 < size ∧ ignore_trailing = false then (2, some .trailingData)
      else (0, none)
    else if ¬ Lh_verify_magic header then
      if first_member then (2, some .badMagic)
      else if loose_trailing = false ∧ c.verifyCorrupt header then
        (2, some .corruptMember)
      else if ignore_trailing = false then (2, some .trailingData)
      else (0, none)
    else if ¬ Lh_verify_version header then
      (2, some (.badVersion (Lh_version header)))
    else if ¬ isvalid_ds (Lh_get_dictionary_size header) then
      (2, some .badDict)
    else
      match c.decodeMember input with
      | .nomem => (1, some .memError)
      | .fail r => (2, some (.decodeFail r))
      | .ok consumed =>
          decompressLoop c ignore_trailing loose_trailing fuel
            (input.drop consumed) false

/-- `decompress` (main.c:719-798): initialize the range decoder (exit 1 on
allocation failure, via `cleanup_and_fail`), then run the per-member
loop starting at the first member.  The fuel `input.length + 1` is enough
for any decode oracle that consumes at least one byte per member. -/
def decompress (c : Codec) (ignore_trailing loose_trailing : Bool)
    (input : List Nat) : Nat × Option Diag :=
  if c.rdInit then
    decompressLoop c ignore_trailing loose_trailing (input.length + 1) input true
  else (1, some .memError)

/-- The carry loop inside `next_filename` (main.c:573-585), acting on the
five volume-counter bytes in reverse order (last counter byte first): a
byte below the code of the digit nine (57) is incremented and the carry
stops; any other byte is set to the code of the digit zero (48) and the
carry continues; the increment fails when all five bytes carry. -/
def inc_digits : List Nat → Option (List Nat)
  | [] => none
  | d :: ds =>
    if d < 57 then some ((d + 1) :: ds)
    else (inc_digits ds).map (fun t => 48 :: t)

/-- `next_filename` (main.c:573-585): the output file name must hold at
least five counter bytes followed by the three-byte extension ".lz"
(codes [46, 108, 122]); the five bytes just before the extension are
incremented as a decimal counter, from the last one backwards. -/
def next_filename (name : List Nat) : Option (List Nat) :=
  if 8 ≤ name.length then
    match inc_digits ((name.drop (name.length - 8)).take 5).reverse with
    | some t =>
        some (name.take (name.length - 8) ++ t.reverse ++
              name.drop (name.length - 3))
    | none => none
  else none

/-- The five decimal digit bytes of a counter value below 100000, as they
appear in a volume file name (most significant first). -/
def padDigits5 (k : Nat) : List Nat :=
  [48 + k / 10000 % 10, 48 + k / 1000 % 10, 48 + k / 100 % 10,
   48 + k / 10 % 10, 48 + k % 10]

/-- Oracle for one call of `LZe_encode_member` / `FLZe_encode_member`
(encoder code absent from this snapshot): given the member size budget
and the remaining uncompressed input, it returns the number of input
bytes consumed and the number of compressed bytes written for the member
(the member position of the range encoder). -/
structure Encoder where
  encodeMember : Nat → Nat → Nat × Nat

/-- Diagnostic of the compression loop failure branch modelled here. -/
inductive CompDiag where
  | tooManyVolumes
deriving DecidableEq

/-- Result of the compression loop: the returned `retval`, the volume
files written as (file name, compressed bytes written to that file)
pairs, and the diagnostic when the loop failed. -/
structure CompResult where
  retval : Nat
  volumes : List (List Nat × Nat)
  diag : Option CompDiag

/-- The member-per-iteration loop of `compress` (main.c:636-663).  State:
remaining uncompressed bytes, `partial_volume_size` (compressed bytes in
the current volume), current output file name, volumes already closed.
Each iteration caps the member at
`min member_size (volume_size - partial_volume_size)` when a volume size
is set; when the member does not finish the data and the accumulated
volume size reaches `volume_size - min_dictionary_size`, the current
volume is closed and, when writing to a named file
(`delete_output_on_interrupt`, here `to_file`), the next volume name is
derived with `next_filename`, failing with "Too many volume files." when
the counter cannot be incremented. -/
def compressLoop (e : Encoder) (member_size volume_size : Nat)
    (to_file : Bool) :
    Nat → Nat → Nat → List Nat → List (List Nat × Nat) → CompResult
  | 0, _, _, _, acc => ⟨0, acc, none⟩
  | fuel + 1, remaining, partial_volume_size, name, acc =>
    let size := if 0 < volume_size then
        min member_size (volume_size - partial_volume_size)
      else member_size
    let step := e.encodeMember size remaining
    let remaining1 := remaining - step.1
    let written := partial_volume_size + step.2
    if remaining1 = 0 then ⟨0, acc ++ [(name, written)], none⟩
    else if 0 < volume_size ∧ volume_size - min_dictionary_size ≤ written then
      if to_file then
        match next_filename name with
        | some name1 =>
            compressLoop e member_size volume_size to_file fuel
              remaining1 0 name1 (acc ++ [(name, written)])
        | none => ⟨1, acc ++ [(name, written)], some .tooManyVolumes⟩
      else
        compressLoop e member_size volume_size to_file fuel
          remaining1 0 name acc
    else
      compressLoop e member_size volume_size to_file fuel
        remaining1 written name acc

/-- `compress` (main.c:596-680) restricted to the member loop: the
polymorphic encoder dispatch picks the fast encoder `fe` when `zero` is
set and the optimal encoder `oe` otherwise (main.c:610-628, 641-642),
then runs the loop on the whole input with zero accumulated volume
size. -/
def compressRun (zero : Bool) (fe oe : Encoder)
    (member_size volume_size : Nat) (to_file : Bool)
    (input_size : Nat) (name : List Nat) : CompResult :=
  compressLoop (if zero then fe else oe) member_size volume_size to_file
    (input_size + 1) input_size 0 name []

/-- The four program modes (main.c:92). -/
inductive Mode where
  | m_compress
  | m_decompress
  | m_list
  | m_test
deriving DecidableEq

/-- The configuration assembled by the option loop of `main`
(main.c:908-931): the encoder options, the mode, the limits, and the
flags.  Numeric option arguments are modelled as their parsed values;
`getnum` keeps only the range check of main.c:287-336. -/
structure Config where
  programMode : Mode
  dictionarySize : Nat
  matchLenLimit : Nat
  zero : Bool
  ignoreTrailing : Bool
  keepInputFiles : Bool
  looseTrailing : Bool
  force : Bool
  recompress : Bool
  toStdout : Bool
  memberSize : Nat
  volumeSize : Nat
  verbosity : Int
  defaultOutputFilename : String
deriving DecidableEq

/-- Largest member size, 2 PiB (main.c:909). -/
def max_member_size : Nat := 0x0008000000000000

/-- Largest volume size, 4 EiB (main.c:910). -/
def max_volume_size : Nat := 0x4000000000000000

/-- The mapping from gzip style levels 0..9 to (dictionary size,
match length limit) pairs (main.c:896-907). -/
def option_mapping : Nat → Nat × Nat
  | 0 => (65536, 16)
  | 1 => (1048576, 5)
  | 2 => (1572864, 6)
  | 3 => (2097152, 8)
  | 4 => (3145728, 12)
  | 5 => (4194304, 20)
  | 6 => (8388608, 36)
  | 7 => (16777216, 68)
  | 8 => (25165824, 132)
  | _ => (33554432, 273)

/-- The default configuration of `main` before option processing
(main.c:908-931): level 6 encoder options, compress mode, member size
2 PiB, no volume size, all flags clear, verbosity 0. -/
def defaultConfig : Config :=
  ⟨Mode.m_compress, (option_mapping 6).1, (option_mapping 6).2, false,
   true, false, false, false, false, false, max_member_size, 0, 0, ""⟩

/-- The range check of `getnum` (main.c:287-336) on an already parsed
numeric value: outside [llimit, ulimit] the program exits with status 1
(string scanning and multiplier suffixes are abstracted away). -/
def getnum (v llimit ulimit : Nat) : Except Nat Nat :=
  if v < llimit ∨ ulimit < v then Except.error 1 else Except.ok v

/-- `get_dict_size` (main.c:339-347) on an already parsed numeric value:
a value that is a valid number of dictionary bits (12..29, per the help
text of main.c:143-144) is read as a power of two, anything else goes
through `getnum` with the dictionary size limits. -/
def get_dict_size (v : Nat) : Except Nat Nat :=
  if 12 ≤ v ∧ v ≤ 29 then Except.ok (2 ^ v)
  else getnum v min_dictionary_size max_dictionary_size

/-- `set_mode` (main.c:350-358): a second distinct operation mode exits
with status 1. -/
def set_mode (c : Config) (m : Mode) : Except Nat Config :=
  if c.programMode ≠ Mode.m_compress ∧ c.programMode ≠ m then
    Except.error 1
  else Except.ok { c with programMode := m }

/-- One parsed command-line option, one constructor per option code of
the table at main.c:934-965; options taking an argument carry its
parsed value. -/
inductive Opt where
  | level (n : Nat)
  | trailingError
  | memberSizeOpt (v : Nat)
  | stdoutOpt
  | decompressOpt
  | forceOpt
  | recompressOpt
  | helpOpt
  | keepOpt
  | listOpt
  | matchLength (v : Nat)
  | threads (v : Nat)
  | outputOpt (arg : String)
  | quietOpt
  | dictSize (v : Nat)
  | volumeSizeOpt (v : Nat)
  | testOpt
  | verboseOpt
  | versionOpt
  | looseTrailingOpt
deriving DecidableEq

/-- One arm of the option switch of `main` (main.c:980-1010).  `helpOpt`
and `versionOpt` return 0 from `main` at once; range errors exit with
status 1; the threads option `-n` is accepted and ignored
(main.c:998). -/
def Opt_step (c : Config) : Opt → Except Nat Config
  | .level n =>
      Except.ok { c with zero := n == 0,
                         dictionarySize := (option_mapping n).1,
                         matchLenLimit := (option_mapping n).2 }
  | .trailingError => Except.ok { c with ignoreTrailing := false }
  | .memberSizeOpt v =>
      (getnum v 100000 max_member_size).map
        (fun m => { c with memberSize := m })
  | .stdoutOpt => Except.ok { c with toStdout := true }
  | .decompressOpt => set_mode c Mode.m_decompress
  | .forceOpt => Except.ok { c with force := true }
  | .recompressOpt => Except.ok { c with recompress := true }
  | .helpOpt => Except.error 0
  | .keepOpt => Except.ok { c with keepInputFiles := true }
  | .listOpt => set_mode c Mode.m_list
  | .matchLength v =>
      (getnum v min_match_len_limit max_match_len).map
        (fun m => { c with matchLenLimit := m, zero := false })
  | .threads _ => Except.ok c
  | .outputOpt arg =>
      if arg == "-" then Except.ok { c with toStdout := true }
      else Except.ok { c with defaultOutputFilename := arg }
  | .quietOpt => Except.ok { c with verbosity := -1 }
  | .dictSize v =>
      (get_dict_size v).map
        (fun d => { c with dictionarySize := d, zero := false })
  | .volumeSizeOpt v =>
      (getnum v 100000 max_volume_size).map
        (fun s => { c with volumeSize := s })
  | .testOpt => set_mode c Mode.m_test
  | .verboseOpt =>
      Except.ok (if c.verbosity < 4 then
        { c with verbosity := c.verbosity + 1 } else c)
  | .versionOpt => Except.error 0
  | .looseTrailingOpt => Except.ok { c with looseTrailing := true }

/-- The option processing loop of `main` (main.c:975-1011). -/
def parseLoop (c : Config) : List Opt → Except Nat Config
  | [] => Except.ok c
  | o :: rest =>
    match Opt_step c o with
    | Except.ok c1 => parseLoop c1 rest
    | Except.error e => Except.error e

/-- Whether an option is a compression-level option -0..-9
(main.c:982-985), the only options that set the `zero` flag. -/
def isLevel : Opt → Bool
  | .level _ => true
  | _ => false

/-- Whether an option is -m / --match-length (main.c:995-997), besides
the level options the only option writing `match_len_limit`. -/
def isMatchLength : Opt → Bool
  | .matchLength _ => true
  | _ => false

/-- Whether an option is -s / --dictionary-size (main.c:1002-1003),
besides the level options the only option writing `dictionary_size`. -/
def isDictSize : Opt → Bool
  | .dictSize _ => true
  | _ => false

/-- Modelled from the spec: `set_retval` of the missing `lzip.h`: the
overall status reflects the worst failure seen so far, so a new value
only raises the stored one (spec section 7 recovery policy). -/
def set_retval (retval new_val : Nat) : Nat :=
  if retval < new_val then new_val else retval

/-- The mode-dependent overrides `main` applies after option processing
(main.c:1040-1042): the volume size is zeroed outside compress mode, the
test mode forces output to neither stdout nor a file, and the default
output file name is dropped in test or stdout mode. -/
def setupDriver (c : Config) : Config :=
  let c1 := if c.programMode ≠ Mode.m_compress then
      { c with volumeSize := 0 } else c
  let c2 := if c1.programMode = Mode.m_test then
      { c1 with toStdout := false } else c1
  if c2.programMode = Mode.m_test ∨ c2.toStdout then
    { c2 with defaultOutputFilename := "" } else c2

/-- `to_file` (main.c:1050-1051) over the post-override configuration:
output goes to the file named with -o. -/
def to_file (c : Config) : Bool :=
  !c.toStdout && decide (c.programMode ≠ Mode.m_test) &&
    decide (c.defaultOutputFilename ≠ "")

/-- `one_to_one` (main.c:1057): each input file gets its own output
file, i.e. neither -c nor -o is in effect and the mode is not test. -/
def one_to_one (c : Config) : Bool :=
  !c.toStdout && decide (c.programMode ≠ Mode.m_test) && !(to_file c)

/-- The input-removal decision of `main` (main.c:1126-1128), reached for
a file after its output was closed: the input is removed only when it
was named (not stdin), --keep is absent, the run is one-to-one, and the
mode is not compress or no volume size was set. -/
def removesInput (c : Config) (named : Bool) : Bool :=
  named && !c.keepInputFiles && one_to_one c &&
    (decide (c.programMode ≠ Mode.m_compress) || c.volumeSize == 0)

/-- `cleanup_and_fail` (main.c:490-504): the partial output file is
deleted when one is owned (`delete_output_on_interrupt`) and the process
exits with the given status.  The result is (exit status, whether the
output file was deleted). -/
def cleanup_and_fail (delete_output_on_interrupt : Bool) (retval : Nat) :
    Nat × Bool :=
  (retval, delete_output_on_interrupt)

/-- One input file as the per-file loop of `main` sees it: whether the
file was named on the command line (as opposed to stdin) and the result
`tmp` of `compress` or `decompress` on it. -/
structure FileRun where
  named : Bool
  tmp : Nat
deriving DecidableEq

/-- State threaded through the per-file loop of `main`
(main.c:1058-1129). -/
structure DriverState where
  retval : Nat
  failedTests : Nat
  processed : Nat
  terminated : Bool
  deletedOutput : Bool
  removedInputs : Nat
deriving DecidableEq

/-- The initial driver state. -/
def initDriver : DriverState := ⟨0, 0, 0, false, false, 0⟩

/-- The per-file loop of `main` (main.c:1058-1129) over a post-override
configuration `c`: each file yields `tmp`; `set_retval` folds it into
the overall status; a nonzero `tmp` outside test mode calls
`cleanup_and_fail` (deleting the owned partial output) and terminates
the process, so later files are not processed; in test mode it
increments `failed_tests` and the loop continues; a file whose
processing did not terminate the run has its input removed when
`removesInput` holds (main.c:1126-1128). -/
def fileLoop (c : Config) (delete_output_on_interrupt : Bool) :
    List FileRun → DriverState → DriverState
  | [], st => st
  | f :: rest, st =>
    let retval1 := set_retval st.retval f.tmp
    if f.tmp ≠ 0 ∧ c.programMode ≠ Mode.m_test then
      { st with retval := (cleanup_and_fail delete_output_on_interrupt retval1).1,
                processed := st.processed + 1,
                terminated := true,
                deletedOutput :=
                  (cleanup_and_fail delete_output_on_interrupt retval1).2 }
    else
      fileLoop c delete_output_on_interrupt rest
        { st with retval := retval1,
                  failedTests := st.failedTests + (if f.tmp ≠ 0 then 1 else 0),
                  processed := st.processed + 1,
                  removedInputs := st.removedInputs +
                    (if removesInput c f.named then 1 else 0) }

/-- A concrete codec oracle: every member decode succeeds consuming the
whole remaining input, nothing looks corrupt, initialization succeeds. -/
def codecAll : Codec :=
  ⟨fun l => MemberOutcome.ok l.length, fun _ => false, true⟩

/-- A concrete codec oracle: every member decode succeeds consuming
seven bytes, nothing looks corrupt. -/
def codecSeven : Codec :=
  ⟨fun _ => MemberOutcome.ok 7, fun _ => false, true⟩

/-- A concrete codec oracle: every member decode succeeds consuming
seven bytes and every header passes the corrupt-header test. -/
def codecSevenCorrupt : Codec :=
  ⟨fun _ => MemberOutcome.ok 7, fun _ => true, true⟩

/-- A concrete seven-byte member image: a six byte header ("LZIP",
version 1, 4 KiB dictionary) and one payload byte. -/
def member7 : List Nat := [76, 90, 73, 80, 1, 12, 0]

/-- A concrete encoder oracle: each member consumes the whole remaining
input and writes `min budget remaining` compressed bytes. -/
def encoderConc : Encoder := ⟨fun b r => (r, min b r)⟩

/-- The default configuration switched to test mode. -/
def testConfig : Config := { defaultConfig with programMode := Mode.m_test }

/-- The default configuration with a volume size set, as -S 100000
would produce. -/
def volConfig : Config := { defaultConfig with volumeSize := 100000 }

/-! ## Theorems -/

theorem decompressLoop_retval_cases (c : Codec) (it lt : Bool) :
    ∀ (fuel : Nat) (input : List Nat) (first : Bool),
      (decompressLoop c it lt fuel input first).1 = 0 ∨
      (decompressLoop c it lt fuel input first).1 = 1 ∨
      (decompressLoop c it lt fuel input first).1 = 2 := by
  intro fuel
  induction fuel with
  | zero => intro input first; simp [decompressLoop]
  | succ n ih =>
    intro input first
    simp only [decompressLoop]
    repeat' first
      | exact Or.inl rfl
      | exact Or.inr (Or.inl rfl)
      | exact Or.inr (Or.inr rfl)
      | exact ih _ _
      | split

theorem decompressLoop_retval_one (c : Codec) (it lt : Bool)
    (hc : ∀ l, c.decodeMember l ≠ MemberOutcome.nomem) :
    ∀ (fuel : Nat) (input : List Nat) (first : Bool),
      (decompressLoop c it lt fuel input first).1 ≠ 1 := by
  intro fuel
  induction fuel with
  | zero => intro input first; simp [decompressLoop]
  | succ n ih =>
    intro input first
    simp only [decompressLoop]
    repeat' first
      | simp
      | exact ih _ _
      | exact absurd (by assumption) (hc input)
      | split

/-- Claim C1: the process exit status is one of 0, 1, 2, 3;
`internal_error` terminates with status 3; the decompression driver only
returns 0, 1 or 2, and when the range decoder initializes and no member
decode runs out of memory (the only environmental failures inside
`decompress`), a failing run never returns 1, so every bad-input failure
yields 2, never 1 or 3. -/
theorem clzip_C1 :
    internal_error_status = 3 ∧
    (∀ (c : Codec) (it lt : Bool) (input : List Nat),
      (decompress c it lt input).1 = 0 ∨ (decompress c it lt input).1 = 1 ∨
        (decompress c it lt input).1 = 2) ∧
    (∀ (c : Codec) (it lt : Bool) (input : List Nat),
      c.rdInit = true →
      (∀ l, c.decodeMember l ≠ MemberOutcome.nomem) →
      (decompress c it lt input).1 ≠ 1 ∧
        (decompress c it lt input).1 ≠ internal_error_status) := by
  refine ⟨rfl, ?_, ?_⟩
  · intro c it lt input
    unfold decompress
    split
    · exact decompressLoop_retval_cases c it lt _ input true
    · exact Or.inr (Or.inl rfl)
  · intro c it lt input hrd hc
    constructor
    · unfold decompress
      rw [if_pos hrd]
      exact decompressLoop_retval_one c it lt hc _ input true
    · have h : (decompress c it lt input).1 = 0 ∨
          (decompress c it lt input).1 = 1 ∨
          (decompress c it lt input).1 = 2 := by
        unfold decompress
        rw [if_pos hrd]
        exact decompressLoop_retval_cases c it lt _ input true
      intro hcontra
      rcases h with h | h | h <;> rw [hcontra] at h <;>
        simp [internal_error_status] at h

theorem decompressLoop_member_step (c : Codec) (it lt : Bool)
    (fuel n : Nat) (input : List Nat) (first : Bool)
    (hlen : Lh_size < input.length)
    (hmagic : Lh_verify_magic (input.take Lh_size) = true)
    (hver : Lh_verify_version (input.take Lh_size) = true)
    (hds : isvalid_ds (Lh_get_dictionary_size (input.take Lh_size)) = true)
    (hdec : c.decodeMember input = MemberOutcome.ok n) :
    decompressLoop c it lt (fuel + 1) input first =
      decompressLoop c it lt fuel (input.drop n) false := by
  simp only [decompressLoop]
  rw [if_neg (by omega), if_neg (by simp [hmagic]),
      if_neg (by simp [hver]), if_neg (by simp [hds]), hdec]

theorem decompressLoop_eof (c : Codec) (it lt : Bool) (fuel : Nat)
    (trail : List Nat) (hlen : trail.length ≤ Lh_size) :
    decompressLoop c it lt (fuel + 1) trail false =
      if Lh_verify_hdrStart (trail.take Lh_size) (min trail.length Lh_size)
      then (2, some Diag.truncatedHeader)
      else if 0 < min trail.length Lh_size ∧ it = false
      then (2, some Diag.trailingData)
      else (0, none) := by
  simp only [decompressLoop]
  rw [if_pos hlen]
  simp

theorem decompressLoop_nonmagic (c : Codec) (it lt : Bool) (fuel : Nat)
    (trail : List Nat) (hlen : Lh_size < trail.length)
    (hmagic : Lh_verify_magic (trail.take Lh_size) = false) :
    decompressLoop c it lt (fuel + 1) trail false =
      if lt = false ∧ c.verifyCorrupt (trail.take Lh_size)
      then (2, some Diag.corruptMember)
      else if it = false then (2, some Diag.trailingData)
      else (0, none) := by
  simp only [decompressLoop]
  rw [if_neg (by omega), if_pos (by simp [hmagic])]
  simp

/-- Claim C2: a valid member followed by bytes that do not form another
member header decompresses with result 0 when `ignore_trailing` is set
and with result 2 (`data_error` at the process boundary) under
--trailing-error. -/
theorem clzip_C2 (c : Codec) (lt : Bool) (input trail : List Nat) (n : Nat)
    (hrd : c.rdInit = true)
    (hlen : Lh_size < input.length)
    (hmagic : Lh_verify_magic (input.take Lh_size) = true)
    (hver : Lh_verify_version (input.take Lh_size) = true)
    (hds : isvalid_ds (Lh_get_dictionary_size (input.take Lh_size)) = true)
    (hdec : c.decodeMember input = MemberOutcome.ok n)
    (htrail : input.drop n = trail)
    (hne : trail ≠ [])
    (hnothdr :
      (trail.length ≤ Lh_size ∧
        Lh_verify_hdrStart (trail.take Lh_size)
          (min trail.length Lh_size) = false) ∨
      (Lh_size < trail.length ∧
        Lh_verify_magic (trail.take Lh_size) = false ∧
        (lt = true ∨ c.verifyCorrupt (trail.take Lh_size) = false))) :
    (decompress c true lt input).1 = 0 ∧
    (decompress c false lt input).1 = 2 := by
  obtain ⟨m, hm⟩ : ∃ m, input.length = m + 1 := ⟨input.length - 1, by omega⟩
  constructor <;>
  · unfold decompress
    rw [if_pos hrd,
        decompressLoop_member_step c _ lt input.length n input true
          hlen hmagic hver hds hdec, htrail, hm,
        show m + 1 = m + 1 from rfl]
    rcases hnothdr with ⟨h1, h2⟩ | ⟨h1, h2, h3⟩
    · rw [decompressLoop_eof c _ lt m trail h1, if_neg (by simp [h2])]
      have hpos : 0 < min trail.length Lh_size := by
        have := List.length_pos.mpr hne
        simp [Lh_size]
        omega
      simp [hpos]
    · rw [decompressLoop_nonmagic c _ lt m trail h1 h2]
      rcases h3 with h3 | h3 <;> simp [h3]

/-- Claim C3: after a valid member, bytes whose start is not valid magic
but passes the corrupt-header test make decompression fail with result 2
and the corrupt-member diagnostic when `loose_trailing` is unset; with
`loose_trailing` set they fall under the `ignore_trailing` trailing-data
policy. -/
theorem clzip_C3 (c : Codec) (it : Bool) (input trail : List Nat) (n : Nat)
    (hrd : c.rdInit = true)
    (hlen : Lh_size < input.length)
    (hmagic : Lh_verify_magic (input.take Lh_size) = true)
    (hver : Lh_verify_version (input.take Lh_size) = true)
    (hds : isvalid_ds (Lh_get_dictionary_size (input.take Lh_size)) = true)
    (hdec : c.decodeMember input = MemberOutcome.ok n)
    (htrail : input.drop n = trail)
    (hlen2 : Lh_size < trail.length)
    (hmagic2 : Lh_verify_magic (trail.take Lh_size) = false)
    (hcorrupt : c.verifyCorrupt (trail.take Lh_size) = true) :
    decompress c it false input = (2, some Diag.corruptMember) ∧
    (decompress c it true input).1 = if it then 0 else 2 := by
  obtain ⟨m, hm⟩ : ∃ m, input.length = m + 1 := ⟨input.length - 1, by omega⟩
  constructor <;>
  · unfold decompress
    rw [if_pos hrd,
        decompressLoop_member_step c it _ input.length n input true
          hlen hmagic hver hds hdec, htrail, hm,
        decompressLoop_nonmagic c it _ m trail hlen2 hmagic2]
    cases it <;> simp [hcorrupt]

/-- Claim C4: a member whose header has valid magic but a version byte
other than 1 makes decompression stop with result 2 and the
"Version N member format not supported." diagnostic before any payload
is decoded (the result holds for every decode oracle); in particular
version 2 renders as the message of spec scenario E. -/
theorem clzip_C4 (c : Codec) (it lt : Bool) (input : List Nat)
    (hrd : c.rdInit = true)
    (hlen : Lh_size < input.length)
    (hmagic : Lh_verify_magic (input.take Lh_size) = true)
    (hver : Lh_version (input.take Lh_size) ≠ 1) :
    decompress c it lt input =
      (2, some (Diag.badVersion (Lh_version (input.take Lh_size)))) ∧
    bad_version 2 = "Version 2 member format not supported." := by
  refine ⟨?_, rfl⟩
  unfold decompress
  rw [if_pos hrd]
  simp only [decompressLoop]
  rw [if_neg (by omega), if_neg (by simp [hmagic]),
      if_pos (by simp [Lh_verify_version, hver])]

/-- Claim C5: a member whose header carries a dictionary size rejected
by `isvalid_ds` (outside [4 KiB, 512 MiB]) makes decompression stop with
result 2 and the bad-dictionary diagnostic before any payload is decoded
(the result holds for every decode oracle). -/
theorem clzip_C5 (c : Codec) (it lt : Bool) (input : List Nat)
    (hrd : c.rdInit = true)
    (hlen : Lh_size < input.length)
    (hmagic : Lh_verify_magic (input.take Lh_size) = true)
    (hver : Lh_verify_version (input.take Lh_size) = true)
    (hds : isvalid_ds (Lh_get_dictionary_size (input.take Lh_size)) = false) :
    decompress c it lt input = (2, some Diag.badDict) := by
  unfold decompress
  rw [if_pos hrd]
  simp only [decompressLoop]
  rw [if_neg (by omega), if_neg (by simp [hmagic]),
      if_neg (by simp [hver]), if_pos (by simp [hds])]

theorem clzip_C1_witness :
    (decompress codecAll true false [0]).1 ≠ 1 ∧
    (decompress codecAll true false [0]).1 ≠ internal_error_status :=
  clzip_C1.2.2 codecAll true false [0] rfl (fun l => by simp [codecAll])

theorem clzip_C2_witness :
    (decompress codecSeven true false (member7 ++ [0])).1 = 0 ∧
    (decompress codecSeven false false (member7 ++ [0])).1 = 2 :=
  clzip_C2 codecSeven false (member7 ++ [0]) [0] 7 rfl (by decide)
    (by decide) (by decide) (by decide) rfl (by decide) (by decide)
    (Or.inl ⟨by decide, by decide⟩)

theorem clzip_C3_witness :
    decompress codecSevenCorrupt true false
        (member7 ++ [1, 2, 3, 4, 5, 6, 7]) =
      (2, some Diag.corruptMember) ∧
    (decompress codecSevenCorrupt true true
        (member7 ++ [1, 2, 3, 4, 5, 6, 7])).1 = if true then 0 else 2 :=
  clzip_C3 codecSevenCorrupt true (member7 ++ [1, 2, 3, 4, 5, 6, 7])
    [1, 2, 3, 4, 5, 6, 7] 7 rfl (by decide) (by decide) (by decide)
    (by decide) rfl (by decide) (by decide) (by decide) rfl

theorem clzip_C4_witness :
    decompress codecAll true true [76, 90, 73, 80, 2, 12, 0] =
      (2, some (Diag.badVersion
        (Lh_version ([76, 90, 73, 80, 2, 12, 0].take Lh_size)))) ∧
    bad_version 2 = "Version 2 member format not supported." :=
  clzip_C4 codecAll true true [76, 90, 73, 80, 2, 12, 0] rfl (by decide)
    (by decide) (by decide)

theorem clzip_C5_witness :
    decompress codecAll true true [76, 90, 73, 80, 1, 30, 0] =
      (2, some Diag.badDict) :=
  clzip_C5 codecAll true true [76, 90, 73, 80, 1, 30, 0] rfl (by decide)
    (by decide) (by decide) (by decide)

theorem inc_digits_pad (k : Nat) (hk : k < 99999) :
    inc_digits (padDigits5 k).reverse = some (padDigits5 (k + 1)).reverse := by
  simp only [padDigits5, List.reverse_cons, List.reverse_nil, List.nil_append,
    List.cons_append, List.append_nil]
  simp only [inc_digits]
  by_cases h0 : 48 + k % 10 < 57
  · rw [if_pos h0]
    simp only [Option.some.injEq, List.cons.injEq, and_true]
    omega
  · rw [if_neg h0]
    by_cases h1 : 48 + k / 10 % 10 < 57
    · rw [if_pos h1]
      simp only [Option.map_some', Option.some.injEq, List.cons.injEq, and_true]
      omega
    · rw [if_neg h1]
      by_cases h2 : 48 + k / 100 % 10 < 57
      · rw [if_pos h2]
        simp only [Option.map_some', Option.some.injEq, List.cons.injEq, and_true]
        omega
      · rw [if_neg h2]
        by_cases h3 : 48 + k / 1000 % 10 < 57
        · rw [if_pos h3]
          simp only [Option.map_some', Option.some.injEq, List.cons.injEq, and_true]
          omega
        · rw [if_neg h3]
          have h4 : 48 + k / 10000 % 10 < 57 := by omega
          rw [if_pos h4]
          simp only [Option.map_some', Option.some.injEq, List.cons.injEq, and_true]
          omega

theorem next_filename_pad (base : List Nat) (k : Nat) (hk : k < 99999) :
    next_filename (base ++ padDigits5 k ++ [46, 108, 122]) =
      some (base ++ padDigits5 (k + 1) ++ [46, 108, 122]) := by
  unfold next_filename
  have hlen : (base ++ padDigits5 k ++ [46, 108, 122]).length =
      base.length + 8 := by
    simp [padDigits5]
  rw [if_pos (by omega)]
  have h8 : (base ++ padDigits5 k ++ [46, 108, 122]).length - 8 =
      base.length := by omega
  have h3 : (base ++ padDigits5 k ++ [46, 108, 122]).length - 3 =
      base.length + 5 := by omega
  rw [h8, h3, List.append_assoc, List.drop_left, List.take_left,
      List.drop_append 5]
  have htake5 : (padDigits5 k ++ [46, 108, 122]).take 5 = padDigits5 k := by
    simp [padDigits5]
  have hdrop5 : (padDigits5 k ++ [46, 108, 122]).drop 5 = [46, 108, 122] := by
    simp [padDigits5]
  rw [htake5, hdrop5, inc_digits_pad k hk]
  simp [List.append_assoc]

theorem next_filename_nines (base : List Nat) :
    next_filename (base ++ padDigits5 99999 ++ [46, 108, 122]) = none := by
  unfold next_filename
  have hlen : (base ++ padDigits5 99999 ++ [46, 108, 122]).length =
      base.length + 8 := by
    simp [padDigits5]
  rw [if_pos (by omega)]
  have h8 : (base ++ padDigits5 99999 ++ [46, 108, 122]).length - 8 =
      base.length := by omega
  rw [h8, List.append_assoc, List.drop_left]
  have htake5 : (padDigits5 99999 ++ [46, 108, 122]).take 5 =
      padDigits5 99999 := by
    simp [padDigits5]
  rw [htake5]
  have : inc_digits (padDigits5 99999).reverse = none := by decide
  rw [this]

theorem compressLoop_volumes_le (e : Encoder) (mS vS : Nat) (tf : Bool)
    (he : ∀ b r, (e.encodeMember b r).2 ≤ b) (hv : 0 < vS) :
    ∀ (fuel remaining pvs : Nat) (name : List Nat)
      (acc : List (List Nat × Nat)),
      pvs ≤ vS → (∀ p ∈ acc, p.2 ≤ vS) →
      ∀ p ∈ (compressLoop e mS vS tf fuel remaining pvs name acc).volumes,
        p.2 ≤ vS := by
  intro fuel
  induction fuel with
  | zero =>
    intro remaining pvs name acc hp hacc p hmem
    exact hacc p (by simpa [compressLoop] using hmem)
  | succ n ih =>
    intro remaining pvs name acc hp hacc p hmem
    simp only [compressLoop] at hmem
    rw [if_pos hv] at hmem
    have hwr : pvs + (e.encodeMember (min mS (vS - pvs)) remaining).2 ≤ vS := by
      have h := he (min mS (vS - pvs)) remaining
      omega
    have hacc1 : ∀ q ∈ acc ++
        [(name, pvs + (e.encodeMember (min mS (vS - pvs)) remaining).2)],
        q.2 ≤ vS := by
      intro q hq
      rcases List.mem_append.mp hq with hq | hq
      · exact hacc q hq
      · rcases List.mem_singleton.mp hq with rfl
        exact hwr
    split at hmem
    · exact hacc1 p hmem
    · split at hmem
      · split at hmem
        · split at hmem
          · exact ih _ _ _ _ (Nat.zero_le _) hacc1 p hmem
          · exact hacc1 p hmem
        · exact ih _ _ _ _ (Nat.zero_le _) hacc p hmem
      · exact ih _ _ _ _ hwr hacc p hmem

theorem compressLoop_retval_diag (e : Encoder) (mS vS : Nat) (tf : Bool) :
    ∀ (fuel remaining pvs : Nat) (name : List Nat)
      (acc : List (List Nat × Nat)),
      ((compressLoop e mS vS tf fuel remaining pvs name acc).retval = 0 ∧
        (compressLoop e mS vS tf fuel remaining pvs name acc).diag = none) ∨
      ((compressLoop e mS vS tf fuel remaining pvs name acc).retval = 1 ∧
        (compressLoop e mS vS tf fuel remaining pvs name acc).diag =
          some CompDiag.tooManyVolumes) := by
  intro fuel
  induction fuel with
  | zero => intro remaining pvs name acc; exact Or.inl ⟨rfl, rfl⟩
  | succ n ih =>
    intro remaining pvs name acc
    simp only [compressLoop]
    split <;>
    · split
      · exact Or.inl ⟨rfl, rfl⟩
      · split
        · split
          · split
            · exact ih _ _ _ _
            · exact Or.inr ⟨rfl, rfl⟩
          · exact ih _ _ _ _
        · exact ih _ _ _ _

/-- Claim C6: under a volume size cap V > 0 the member budget
`min member_size (V - bytes already in the volume)` keeps every volume
file at most V bytes for any encoder that respects its budget; the run
either succeeds (retval 0) or fails with retval 1 and the
"Too many volume files." diagnostic; the next volume name is derived by
incrementing the 5-digit counter before the ".lz" extension, and the
increment fails exactly when the counter is exhausted at 99999. -/
theorem clzip_C6 :
    (∀ (zero : Bool) (fe oe : Encoder),
      (∀ b r, ((if zero then fe else oe).encodeMember b r).2 ≤ b) →
      ∀ (mS vS : Nat), 0 < vS →
      ∀ (tf : Bool) (inSize : Nat) (name : List Nat),
        (∀ p ∈ (compressRun zero fe oe mS vS tf inSize name).volumes,
          p.2 ≤ vS) ∧
        (((compressRun zero fe oe mS vS tf inSize name).retval = 0 ∧
          (compressRun zero fe oe mS vS tf inSize name).diag = none) ∨
         ((compressRun zero fe oe mS vS tf inSize name).retval = 1 ∧
          (compressRun zero fe oe mS vS tf inSize name).diag =
            some CompDiag.tooManyVolumes))) ∧
    (∀ (base : List Nat) (k : Nat), k < 99999 →
      next_filename (base ++ padDigits5 k ++ [46, 108, 122]) =
        some (base ++ padDigits5 (k + 1) ++ [46, 108, 122])) ∧
    (∀ base : List Nat,
      next_filename (base ++ padDigits5 99999 ++ [46, 108, 122]) = none) := by
  refine ⟨?_, next_filename_pad, next_filename_nines⟩
  intro zero fe oe he mS vS hv tf inSize name
  constructor
  · exact compressLoop_volumes_le (if zero then fe else oe) mS vS tf he hv
      (inSize + 1) inSize 0 name [] (Nat.zero_le _) (by simp)
  · exact compressLoop_retval_diag (if zero then fe else oe) mS vS tf
      (inSize + 1) inSize 0 name []

theorem clzip_C6_witness :
    ((∀ p ∈ (compressRun false encoderConc encoderConc 100000 100000 true
        200000 ([120] ++ padDigits5 1 ++ [46, 108, 122])).volumes,
        p.2 ≤ 100000) ∧
      (((compressRun false encoderConc encoderConc 100000 100000 true
          200000 ([120] ++ padDigits5 1 ++ [46, 108, 122])).retval = 0 ∧
        (compressRun false encoderConc encoderConc 100000 100000 true
          200000 ([120] ++ padDigits5 1 ++ [46, 108, 122])).diag = none) ∨
       ((compressRun false encoderConc encoderConc 100000 100000 true
          200000 ([120] ++ padDigits5 1 ++ [46, 108, 122])).retval = 1 ∧
        (compressRun false encoderConc encoderConc 100000 100000 true
          200000 ([120] ++ padDigits5 1 ++ [46, 108, 122])).diag =
          some CompDiag.tooManyVolumes))) ∧
    next_filename ([120] ++ padDigits5 41 ++ [46, 108, 122]) =
      some ([120] ++ padDigits5 42 ++ [46, 108, 122]) ∧
    next_filename ([120] ++ padDigits5 99999 ++ [46, 108, 122]) = none :=
  ⟨clzip_C6.1 false encoderConc encoderConc
      (fun b r => by simp [encoderConc]) 100000 100000 (by decide) true
      200000 ([120] ++ padDigits5 1 ++ [46, 108, 122]),
   clzip_C6.2.1 [120] 41 (by decide), clzip_C6.2.2 [120]⟩

theorem fileLoop_test (c : Config) (d : Bool)
    (hmode : c.programMode = Mode.m_test) :
    ∀ (files : List FileRun) (st : DriverState),
      (fileLoop c d files st).terminated = st.terminated ∧
      (fileLoop c d files st).processed = st.processed + files.length ∧
      (fileLoop c d files st).failedTests =
        st.failedTests + (files.filter (fun f => f.tmp != 0)).length ∧
      (fileLoop c d files st).retval =
        files.foldl (fun a f => set_retval a f.tmp) st.retval := by
  intro files
  induction files with
  | nil => intro st; simp [fileLoop]
  | cons f rest ih =>
    intro st
    simp only [fileLoop]
    rw [if_neg (by simp [hmode])]
    obtain ⟨h1, h2, h3, h4⟩ := ih _
    refine ⟨h1, by rw [h2]; simp; omega, ?_,
      by rw [h4]; simp [List.foldl_cons]⟩
    rw [h3]
    by_cases hz : f.tmp = 0 <;>
      first
      | (simp [List.filter_cons, hz]; omega)
      | simp [List.filter_cons, hz]

theorem fileLoop_fail (c : Config) (d : Bool)
    (hmode : c.programMode ≠ Mode.m_test) :
    ∀ (pre : List FileRun), (∀ g ∈ pre, g.tmp = 0) →
    ∀ (f : FileRun), f.tmp ≠ 0 → ∀ (post : List FileRun) (st : DriverState),
      (fileLoop c d (pre ++ f :: post) st).terminated = true ∧
      (fileLoop c d (pre ++ f :: post) st).processed =
        st.processed + pre.length + 1 ∧
      (fileLoop c d (pre ++ f :: post) st).retval =
        set_retval st.retval f.tmp ∧
      (fileLoop c d (pre ++ f :: post) st).deletedOutput = d := by
  intro pre
  induction pre with
  | nil =>
    intro _ f hf post st
    simp only [List.nil_append, fileLoop]
    rw [if_pos ⟨hf, hmode⟩]
    simp [cleanup_and_fail]
  | cons g pre ih =>
    intro hpre f hf post st
    have hg : g.tmp = 0 := hpre g (by simp)
    rw [List.cons_append]
    simp only [fileLoop]
    rw [if_neg (by simp [hg])]
    obtain ⟨h1, h2, h3, h4⟩ :=
      ih (fun x hx => hpre x (by simp [hx])) f hf post _
    refine ⟨h1, by rw [h2]; simp; omega, ?_, h4⟩
    rw [h3]
    simp [set_retval, hg]

/-- Claim C7: in test mode a decode failure increments `failed_tests`,
folds into the overall status via `set_retval`, and the loop continues
through all input files without terminating; in compress or decompress
mode the first failure calls `cleanup_and_fail`, which deletes the
partial output file exactly when one is owned and terminates the process
with the failing status, so no later input is processed. -/
theorem clzip_C7 :
    (∀ (c : Config) (d : Bool) (files : List FileRun),
      c.programMode = Mode.m_test →
      (fileLoop c d files initDriver).terminated = false ∧
      (fileLoop c d files initDriver).processed = files.length ∧
      (fileLoop c d files initDriver).failedTests =
        (files.filter (fun f => f.tmp != 0)).length ∧
      (fileLoop c d files initDriver).retval =
        files.foldl (fun a f => set_retval a f.tmp) 0) ∧
    (∀ (c : Config) (d : Bool) (pre : List FileRun) (f : FileRun)
        (post : List FileRun),
      c.programMode ≠ Mode.m_test → (∀ g ∈ pre, g.tmp = 0) → f.tmp ≠ 0 →
      (fileLoop c d (pre ++ f :: post) initDriver).terminated = true ∧
      (fileLoop c d (pre ++ f :: post) initDriver).processed =
        pre.length + 1 ∧
      (fileLoop c d (pre ++ f :: post) initDriver).retval = f.tmp ∧
      (fileLoop c d (pre ++ f :: post) initDriver).deletedOutput = d) := by
  constructor
  · intro c d files hmode
    have h := fileLoop_test c d hmode files initDriver
    simpa [initDriver] using h
  · intro c d pre f post hmode hpre hf
    have h := fileLoop_fail c d hmode pre hpre f hf post initDriver
    have hz : set_retval 0 f.tmp = f.tmp := by
      simp only [set_retval]
      split <;> omega
    rw [initDriver] at h
    simpa [hz] using h

theorem clzip_C7_witness :
    ((fileLoop testConfig false [⟨true, 2⟩, ⟨true, 0⟩] initDriver).terminated
        = false ∧
     (fileLoop testConfig false [⟨true, 2⟩, ⟨true, 0⟩] initDriver).processed
        = ([⟨true, 2⟩, ⟨true, 0⟩] : List FileRun).length ∧
     (fileLoop testConfig false [⟨true, 2⟩, ⟨true, 0⟩] initDriver).failedTests
        = (([⟨true, 2⟩, ⟨true, 0⟩] : List FileRun).filter
            (fun f => f.tmp != 0)).length ∧
     (fileLoop testConfig false [⟨true, 2⟩, ⟨true, 0⟩] initDriver).retval
        = ([⟨true, 2⟩, ⟨true, 0⟩] : List FileRun).foldl
            (fun a f => set_retval a f.tmp) 0) ∧
    ((fileLoop defaultConfig true ([⟨true, 0⟩] ++ ⟨true, 2⟩ :: [⟨true, 0⟩])
        initDriver).terminated = true ∧
     (fileLoop defaultConfig true ([⟨true, 0⟩] ++ ⟨true, 2⟩ :: [⟨true, 0⟩])
        initDriver).processed = ([⟨true, 0⟩] : List FileRun).length + 1 ∧
     (fileLoop defaultConfig true ([⟨true, 0⟩] ++ ⟨true, 2⟩ :: [⟨true, 0⟩])
        initDriver).retval = (⟨true, 2⟩ : FileRun).tmp ∧
     (fileLoop defaultConfig true ([⟨true, 0⟩] ++ ⟨true, 2⟩ :: [⟨true, 0⟩])
        initDriver).deletedOutput = true) :=
  ⟨clzip_C7.1 testConfig false [⟨true, 2⟩, ⟨true, 0⟩] rfl,
   clzip_C7.2 defaultConfig true [⟨true, 0⟩] ⟨true, 2⟩ [⟨true, 0⟩]
     (by decide) (by decide) (by decide)⟩

/-- Claim C8: the -n / --threads option is parsed but ignored
(main.c:998): dropping it anywhere from the option list, whatever its
argument, leaves the resulting configuration (and hence the behaviour
derived from it) unchanged. -/
theorem clzip_C8 (c : Config) (l1 l2 : List Opt) (v : Nat) :
    parseLoop c (l1 ++ Opt.threads v :: l2) = parseLoop c (l1 ++ l2) := by
  induction l1 generalizing c with
  | nil => simp [parseLoop, Opt_step]
  | cons o l1 ih =>
    rw [List.cons_append, List.cons_append]
    simp only [parseLoop]
    cases hstep : Opt_step c o with
    | error e => rfl
    | ok c2 => exact ih c2

theorem parseLoop_append (a b : List Opt) :
    ∀ c, parseLoop c (a ++ b) =
      match parseLoop c a with
      | Except.ok c1 => parseLoop c1 b
      | Except.error e => Except.error e := by
  induction a with
  | nil => intro c; simp [parseLoop]
  | cons o a ih =>
    intro c
    rw [List.cons_append]
    simp only [parseLoop]
    cases hstep : Opt_step c o with
    | error e => rfl
    | ok c2 => exact ih c2

theorem Opt_step_zero_stays (c c2 : Config) (o : Opt)
    (ho : isLevel o = false) (hz : c.zero = false)
    (h : Opt_step c o = Except.ok c2) : c2.zero = false := by
  cases o <;>
    simp only [Opt_step, getnum, get_dict_size, set_mode, Except.map,
      isLevel] at h ho <;>
    (try repeat' split at h) <;>
    (try cases h) <;>
    simp_all

theorem Opt_step_mll_preserve (c c2 : Config) (o : Opt)
    (ho1 : isLevel o = false) (ho2 : isMatchLength o = false)
    (h : Opt_step c o = Except.ok c2) :
    c2.matchLenLimit = c.matchLenLimit := by
  cases o <;>
    simp only [Opt_step, getnum, get_dict_size, set_mode, Except.map,
      isLevel, isMatchLength] at h ho1 ho2 <;>
    (try repeat' split at h) <;>
    (try cases h) <;>
    simp_all

theorem Opt_step_ds_preserve (c c2 : Config) (o : Opt)
    (ho1 : isLevel o = false) (ho2 : isDictSize o = false)
    (h : Opt_step c o = Except.ok c2) :
    c2.dictionarySize = c.dictionarySize := by
  cases o <;>
    simp only [Opt_step, getnum, get_dict_size, set_mode, Except.map,
      isLevel, isDictSize] at h ho1 ho2 <;>
    (try repeat' split at h) <;>
    (try cases h) <;>
    simp_all

theorem parseLoop_zero_stays (opts : List Opt)
    (hopts : ∀ o ∈ opts, isLevel o = false) :
    ∀ (c c1 : Config), parseLoop c opts = Except.ok c1 →
      c.zero = false → c1.zero = false := by
  induction opts with
  | nil =>
    intro c c1 h hz
    simp only [parseLoop, Except.ok.injEq] at h
    subst h
    exact hz
  | cons o rest ih =>
    intro c c1 h hz
    simp only [parseLoop] at h
    cases hstep : Opt_step c o with
    | error e => rw [hstep] at h; cases h
    | ok c2 =>
      rw [hstep] at h
      exact ih (fun x hx => hopts x (by simp [hx])) c2 c1 h
        (Opt_step_zero_stays c c2 o (hopts o (by simp)) hz hstep)

theorem parseLoop_mll_preserve (opts : List Opt)
    (hopts : ∀ o ∈ opts, isLevel o = false ∧ isMatchLength o = false) :
    ∀ (c c1 : Config), parseLoop c opts = Except.ok c1 →
      c1.matchLenLimit = c.matchLenLimit := by
  induction opts with
  | nil =>
    intro c c1 h
    simp only [parseLoop, Except.ok.injEq] at h
    subst h
    rfl
  | cons o rest ih =>
    intro c c1 h
    simp only [parseLoop] at h
    cases hstep : Opt_step c o with
    | error e => rw [hstep] at h; cases h
    | ok c2 =>
      rw [hstep] at h
      rw [ih (fun x hx => hopts x (by simp [hx])) c2 c1 h]
      exact Opt_step_mll_preserve c c2 o (hopts o (by simp)).1
        (hopts o (by simp)).2 hstep

theorem parseLoop_ds_preserve (opts : List Opt)
    (hopts : ∀ o ∈ opts, isLevel o = false ∧ isDictSize o = false) :
    ∀ (c c1 : Config), parseLoop c opts = Except.ok c1 →
      c1.dictionarySize = c.dictionarySize := by
  induction opts with
  | nil =>
    intro c c1 h
    simp only [parseLoop, Except.ok.injEq] at h
    subst h
    rfl
  | cons o rest ih =>
    intro c c1 h
    simp only [parseLoop] at h
    cases hstep : Opt_step c o with
    | error e => rw [hstep] at h; cases h
    | ok c2 =>
      rw [hstep] at h
      rw [ih (fun x hx => hopts x (by simp [hx])) c2 c1 h]
      exact Opt_step_ds_preserve c c2 o (hopts o (by simp)).1
        (hopts o (by simp)).2 hstep

theorem parseLoop_mid (cC : Config) (l3 : List Opt) (v : Nat)
    (c1 : Config)
    (hl3 : ∀ o ∈ l3, isLevel o = false ∧ isMatchLength o = false)
    (h : parseLoop cC (Opt.matchLength v :: l3) = Except.ok c1) :
    c1.zero = false ∧ c1.matchLenLimit = v := by
  simp only [parseLoop, Opt_step, getnum] at h
  split at h
  case h_1 c2 heq =>
    split at heq
    · simp [Except.map] at heq
    · simp only [Except.map, Except.ok.injEq] at heq
      subst heq
      refine ⟨parseLoop_zero_stays l3 (fun o ho => (hl3 o ho).1) _ c1 h rfl,
        ?_⟩
      rw [parseLoop_mll_preserve l3 hl3 _ c1 h]
  case h_2 e heq => cases h

theorem parseLoop_midS (cC : Config) (l3 : List Opt) (d : Nat)
    (c1 : Config)
    (hl3 : ∀ o ∈ l3, isLevel o = false ∧ isDictSize o = false)
    (h : parseLoop cC (Opt.dictSize d :: l3) = Except.ok c1) :
    c1.zero = false ∧ ∃ ds, get_dict_size d = Except.ok ds ∧
      c1.dictionarySize = ds := by
  simp only [parseLoop, Opt_step] at h
  split at h
  case h_1 c2 heq =>
    cases hgd : get_dict_size d with
    | error e => rw [hgd] at heq; simp [Except.map] at heq
    | ok ds =>
      rw [hgd] at heq
      simp only [Except.map, Except.ok.injEq] at heq
      subst heq
      refine ⟨parseLoop_zero_stays l3 (fun o ho => (hl3 o ho).1) _ c1 h rfl,
        ds, rfl, ?_⟩
      rw [parseLoop_ds_preserve l3 hl3 _ c1 h]
  case h_2 e heq => cases h

/-- Claim C9: -0 enables the fast encoder flag, but a later -m or -s
clears it (main.c:995-1003): any option list of the shape
"... -0 ... -m v ..." with no level or -m option after the -m parses to
a configuration with the fast-encoder flag off and the given match
length, and any option list of the shape "... -0 ... -s d ..." with no
level or -s option after the -s parses to a configuration with the
fast-encoder flag off and the dictionary size `get_dict_size` derives
from d; a trailing level option sets the flag again exactly when it is
level 0; and with the flag off a compression run uses only the optimal
encoder (the fast encoder is irrelevant to the result). -/
theorem clzip_C9 :
    (∀ (c0 : Config) (l1 l2 l3 : List Opt) (v : Nat) (c1 : Config),
      (∀ o ∈ l3, isLevel o = false ∧ isMatchLength o = false) →
      parseLoop c0 (l1 ++ Opt.level 0 :: l2 ++ Opt.matchLength v :: l3) =
        Except.ok c1 →
      c1.zero = false ∧ c1.matchLenLimit = v) ∧
    (∀ (c0 : Config) (l1 l2 l3 : List Opt) (d : Nat) (c1 : Config),
      (∀ o ∈ l3, isLevel o = false ∧ isDictSize o = false) →
      parseLoop c0 (l1 ++ Opt.level 0 :: l2 ++ Opt.dictSize d :: l3) =
        Except.ok c1 →
      c1.zero = false ∧ ∃ ds, get_dict_size d = Except.ok ds ∧
        c1.dictionarySize = ds) ∧
    (∀ (c0 : Config) (opts : List Opt) (n : Nat) (c1 : Config),
      parseLoop c0 (opts ++ [Opt.level n]) = Except.ok c1 →
      c1.zero = (n == 0)) ∧
    (∀ (fe fe2 oe : Encoder) (mS vS : Nat) (tf : Bool)
        (inSize : Nat) (name : List Nat),
      compressRun false fe oe mS vS tf inSize name =
        compressRun false fe2 oe mS vS tf inSize name) := by
  refine ⟨?_, ?_, ?_, ?_⟩
  · intro c0 l1 l2 l3 v c1 hl3 h
    rw [parseLoop_append] at h
    cases hA : parseLoop c0 (l1 ++ Opt.level 0 :: l2) with
    | error e => rw [hA] at h; cases h
    | ok cA =>
      rw [hA] at h
      exact parseLoop_mid cA l3 v c1 hl3 h
  · intro c0 l1 l2 l3 d c1 hl3 h
    rw [parseLoop_append] at h
    cases hA : parseLoop c0 (l1 ++ Opt.level 0 :: l2) with
    | error e => rw [hA] at h; cases h
    | ok cA =>
      rw [hA] at h
      exact parseLoop_midS cA l3 d c1 hl3 h
  · intro c0 opts n c1 h
    rw [parseLoop_append] at h
    cases hA : parseLoop c0 opts with
    | error e => rw [hA] at h; cases h
    | ok cA =>
      rw [hA] at h
      simp only [parseLoop, Opt_step, Except.ok.injEq] at h
      subst h
      rfl
  · intro fe fe2 oe mS vS tf inSize name
    rfl

theorem clzip_C9_witness :
    ((⟨Mode.m_compress, 65536, 40, false, true, false, false, false, false,
        false, max_member_size, 0, 1, ""⟩ : Config).zero = false ∧
     (⟨Mode.m_compress, 65536, 40, false, true, false, false, false, false,
        false, max_member_size, 0, 1, ""⟩ : Config).matchLenLimit = 40) ∧
    ((⟨Mode.m_compress, 1048576, 16, false, true, false, false, false,
        false, false, max_member_size, 0, 1, ""⟩ : Config).zero = false ∧
     ∃ ds, get_dict_size 20 = Except.ok ds ∧
      (⟨Mode.m_compress, 1048576, 16, false, true, false, false, false,
        false, false, max_member_size, 0, 1, ""⟩ :
          Config).dictionarySize = ds) ∧
    (⟨Mode.m_compress, 65536, 16, true, true, false, false, false, false,
        false, max_member_size, 0, 0, ""⟩ : Config).zero = (0 == 0) ∧
    compressRun false encoderConc encoderConc 1 1 true 1 [] =
      compressRun false ⟨fun _ _ => (0, 0)⟩ encoderConc 1 1 true 1 [] :=
  ⟨clzip_C9.1 defaultConfig [] [] [Opt.verboseOpt] 40
      ⟨Mode.m_compress, 65536, 40, false, true, false, false, false, false,
        false, max_member_size, 0, 1, ""⟩
      (by simp [isLevel, isMatchLength]) rfl,
   clzip_C9.2.1 defaultConfig [] [] [Opt.verboseOpt] 20
      ⟨Mode.m_compress, 1048576, 16, false, true, false, false, false,
        false, false, max_member_size, 0, 1, ""⟩
      (by simp [isLevel, isDictSize]) rfl,
   clzip_C9.2.2.1 defaultConfig [Opt.matchLength 40] 0
      ⟨Mode.m_compress, 65536, 16, true, true, false, false, false, false,
        false, max_member_size, 0, 0, ""⟩ rfl,
   clzip_C9.2.2.2 encoderConc ⟨fun _ _ => (0, 0)⟩ encoderConc 1 1 true 1 []⟩

theorem removesInput_compress (c : Config) (named : Bool)
    (hm : c.programMode = Mode.m_compress) (hv : 0 < c.volumeSize) :
    removesInput c named = false := by
  have hz : (c.volumeSize == 0) = false := by
    simp
    omega
  simp [removesInput, hm, hz]

theorem setupDriver_compress (c : Config)
    (hm : c.programMode = Mode.m_compress) :
    (setupDriver c).programMode = Mode.m_compress ∧
    (setupDriver c).volumeSize = c.volumeSize := by
  simp [setupDriver, hm]
  split <;> simp [hm]

theorem fileLoop_removed (c : Config) (d : Bool)
    (hrm : ∀ named, removesInput c named = false) :
    ∀ (files : List FileRun) (st : DriverState),
      (fileLoop c d files st).removedInputs = st.removedInputs := by
  intro files
  induction files with
  | nil => intro st; rfl
  | cons f rest ih =>
    intro st
    simp only [fileLoop]
    split
    · rfl
    · rw [ih]
      simp [hrm]

/-- Claim C10: compressing one-to-one into volume files never removes
the input file at the end of a successful run, --keep or not; input
removal happens exactly when the file was named, --keep is absent, the
run is one-to-one, and the mode is not compress or no volume size was
set (main.c:1126-1128). -/
theorem clzip_C10 :
    (∀ (c : Config) (d : Bool) (files : List FileRun),
      c.programMode = Mode.m_compress → 0 < c.volumeSize →
      (fileLoop (setupDriver c) d files initDriver).removedInputs = 0) ∧
    (∀ (c : Config) (named : Bool),
      removesInput c named = true ↔
        (named = true ∧ c.keepInputFiles = false ∧ one_to_one c = true ∧
          (c.programMode ≠ Mode.m_compress ∨ c.volumeSize = 0))) := by
  constructor
  · intro c d files hm hv
    obtain ⟨h1, h2⟩ := setupDriver_compress c hm
    have h := fileLoop_removed (setupDriver c) d
      (fun named => removesInput_compress _ named h1 (by rw [h2]; exact hv))
      files initDriver
    simpa [initDriver] using h
  · intro c named
    simp [removesInput]
    tauto

theorem clzip_C10_witness :
    (fileLoop (setupDriver volConfig) false [⟨true, 0⟩]
        initDriver).removedInputs = 0 ∧
    (removesInput defaultConfig true = true ↔
      (true = true ∧ defaultConfig.keepInputFiles = false ∧
        one_to_one defaultConfig = true ∧
        (defaultConfig.programMode ≠ Mode.m_compress ∨
          defaultConfig.volumeSize = 0))) :=
  ⟨clzip_C10.1 volConfig false [⟨true, 0⟩] rfl (by decide),
   clzip_C10.2 defaultConfig true⟩

end Clzip
